import Mathlib

/-!
Verification of the literature-review backend's core ranking services.

The Python services under `backend/app/services` are shallowly embedded:
SQLAlchemy tables become Lean lists of structures (queried in table order,
as SQLite returns rows in insertion order for these tables), Python floats
become exact rationals (ℚ) except for cosine-similarity values, which are
real numbers because the code divides by `sqrt` of the squared norms, and
Python dicts become insertion-ordered association lists.  Python's stable
`sorted(..., reverse=True)` becomes `List.insertionSort` with a `≥`-style
relation, which is stable and sorts descending.
-/

/-! ### Small Python-semantics helpers -/

/-- Python `str.strip()`: drop whitespace at both ends. -/
def pyStrip (s : String) : String :=
  String.mk (((s.data.dropWhile Char.isWhitespace).reverse.dropWhile Char.isWhitespace).reverse)

/-- Python `str.lower()` (ASCII case folding, as used by the services). -/
def pyLower (s : String) : String :=
  String.mk (s.data.map Char.toLower)

/-- Whether `needle` occurs as a contiguous run inside `hay` (Python `in`). -/
def charsContain (needle hay : List Char) : Bool :=
  needle.isPrefixOf hay ||
    match hay with
    | [] => false
    | _ :: t => charsContain needle t

/-- Python `needle in hay` on strings. -/
def strContains (hay needle : String) : Bool :=
  charsContain needle.data hay.data

/-- Lookup in an insertion-ordered association list (Python `d.get(k)`). -/
def dictGet {κ α : Type} [BEq κ] (d : List (κ × α)) (k : κ) : Option α :=
  (d.find? (fun p => p.1 == k)).map (fun p => p.2)

/-- Python `k in d` for a dict. -/
def dictMem {κ α : Type} [BEq κ] (d : List (κ × α)) (k : κ) : Bool :=
  d.any (fun p => p.1 == k)

/-- Python `d[k] = v`: overwrite in place if the key exists, else append. -/
def dictSet {κ α : Type} [BEq κ] (d : List (κ × α)) (k : κ) (v : α) : List (κ × α) :=
  if d.any (fun p => p.1 == k) then
    d.map (fun p => if p.1 == k then (k, v) else p)
  else
    d ++ [(k, v)]

/-- Python `del d[k]`. -/
def dictDel {κ α : Type} [BEq κ] (d : List (κ × α)) (k : κ) : List (κ × α) :=
  d.filter (fun p => !(p.1 == k))

/-- Python `max(d.values()) if d else dflt` for a rational-valued dict. -/
def dictMaxD {κ : Type} (d : List (κ × ℚ)) (dflt : ℚ) : ℚ :=
  match d.map (fun p => p.2) with
  | [] => dflt
  | x :: xs => xs.foldl max x

/-! ### Data model (`app/models`) -/

/-- Row of `papers` (the fields the core services read). -/
structure Paper where
  id : Int
  year : Option Int
  citationsCount : Int
  embedding : Option (List ℚ)
deriving DecidableEq, Repr

/-- Row of `tags`. -/
structure Tag where
  id : Int
  name : String
  key : String
  category : Option String
  source : Option String
deriving DecidableEq, Repr

/-- Row of `tag_groups`. -/
structure TagGroup where
  id : Int
  name : String
  key : String
deriving DecidableEq, Repr

/-- Row of `tag_group_tags`; the nullable float `weight` defaults to 1.0. -/
structure TagGroupTag where
  groupId : Int
  tagId : Int
  weight : Option ℚ
deriving DecidableEq, Repr

/-- Row of `paper_tags`. -/
structure PaperTag where
  paperId : Int
  tagId : Int
  weight : Option ℚ
  source : Option String
deriving DecidableEq, Repr

/-- Row of `paper_citations` (the two endpoint columns the core reads). -/
structure PaperCitation where
  citingPaperId : Int
  citedPaperId : Int
deriving DecidableEq, Repr

/-- Row of `recall_logs` (the fields the Interaction Learner reads). -/
structure RecallLog where
  eventType : String
  queryKeywords : Option (List String)
  groupKeys : Option (List String)
  createdAt : Int
deriving DecidableEq, Repr

/-- The database state seen by one request; `nextTagId` models the id
sequence used when `flush()` assigns a primary key to a lazily created Tag. -/
structure DB where
  papers : List Paper
  tags : List Tag
  tagGroups : List TagGroup
  tagGroupTags : List TagGroupTag
  paperTags : List PaperTag
  paperCitations : List PaperCitation
  recallLogs : List RecallLog
  nextTagId : Int
deriving DecidableEq, Repr

/-! ### Interaction Learner (`recall_enhancement.py`, `analyze_logs_and_update_graph`) -/

/-- The learner's weight cap: `if new_weight > 10.0: new_weight = 10.0`. -/
def capWeight (w : ℚ) : ℚ :=
  if w > 10 then 10 else w

/-- Update the first `TagGroupTag` row matching `(gid, tid)` in place, as the
ORM mutates the row returned by `.first()`; `link.weight or 0.0` coalesces a
NULL weight to 0. -/
def updateFirstEdge (es : List TagGroupTag) (gid tid : Int) (inc : ℚ) : List TagGroupTag :=
  match es with
  | [] => []
  | e :: rest =>
    if e.groupId == gid && e.tagId == tid then
      { e with weight := some (capWeight (e.weight.getD 0 + inc)) } :: rest
    else
      e :: updateFirstEdge rest gid tid inc

/-- The `.first()` lookup of a `(group, tag)` edge. -/
def findEdge (es : List TagGroupTag) (gid tid : Int) : Option TagGroupTag :=
  es.find? (fun e => e.groupId == gid && e.tagId == tid)

/-- Find-or-create of the `(group, tag)` edge: update the existing edge, or
insert a new one with weight `1.0 + increment`. -/
def learnEdge (db : DB) (gid tid : Int) (inc : ℚ) : DB :=
  match findEdge db.tagGroupTags gid tid with
  | some _ => { db with tagGroupTags := updateFirstEdge db.tagGroupTags gid tid inc }
  | none => { db with tagGroupTags := db.tagGroupTags ++ [⟨gid, tid, some (1 + inc)⟩] }

/-- Normalised tag key of a query keyword: `keyword.strip().lower()`. -/
def normKey (keyword : String) : String :=
  pyLower (pyStrip keyword)

/-- Process one `(group, keyword)` pair of a log row: resolve the Tag by key
(lazily creating it with category `user_query` and source `learned_from_log`),
then update or create the edge. -/
def learnKeyword (db : DB) (gid : Int) (inc : ℚ) (keyword : String) : DB :=
  let tagKey := normKey keyword
  match db.tags.find? (fun t => t.key == tagKey) with
  | some t => learnEdge db gid t.id inc
  | none =>
    let t : Tag :=
      { id := db.nextTagId, name := keyword, key := tagKey,
        category := some ("user_query"), source := some ("learned_from_log") }
    let db' := { db with tags := db.tags ++ [t], nextTagId := db.nextTagId + 1 }
    learnEdge db' gid t.id inc

/-- Process one group key of a log row: a group that does not resolve is
skipped, otherwise every query keyword of the row is learned against it. -/
def learnGroup (db : DB) (inc : ℚ) (keywords : List String) (groupKey : String) : DB :=
  match db.tagGroups.find? (fun g => g.key == groupKey) with
  | none => db
  | some g => keywords.foldl (fun d kw => learnKeyword d g.id inc kw) db

/-- Process one interaction-log row: rows with missing/empty keywords or group
keys are skipped; increment is 0.1 for `click` and 0.5 otherwise (the rows are
pre-filtered to `click`/`accept`). -/
def processLog (db : DB) (log : RecallLog) : DB :=
  match log.queryKeywords, log.groupKeys with
  | some qks, some gks =>
    if qks.isEmpty || gks.isEmpty then db
    else
      let inc : ℚ := if log.eventType == "click" then 1/10 else 1/2
      gks.foldl (fun d gk => learnGroup d inc qks gk) db
  | _, _ => db

/-- `analyze_logs_and_update_graph`: fold the `click`/`accept` rows of the
time window (rows created at or after `cutoff`) over the graph state. -/
def analyzeLogsAndUpdateGraph (db : DB) (cutoff : Int) : DB :=
  let logs := db.recallLogs.filter
    (fun l => decide (l.createdAt ≥ cutoff) && (l.eventType == "click" || l.eventType == "accept"))
  logs.foldl processLog db

/-! ### Graph keyword expansion (`recall_enhancement.py`, `expand_keywords_using_graph`) -/

/-- The effective weight of a membership edge in the keyword expansion:
`float(rel.weight or 1.0)` (NULL and 0.0 both coalesce to 1.0). -/
def relWeight (r : TagGroupTag) : ℚ :=
  match r.weight with
  | none => 1
  | some w0 => if w0 == 0 then 1 else w0

/-- Step 2 of `expand_keywords_using_graph`: sum the initial tags' edge
weights per group. -/
def expandGroupScores (db : DB) (initialTagIds : List Int) : List (Int × ℚ) :=
  (db.tagGroupTags.filter (fun r => initialTagIds.contains r.tagId)).foldl
    (fun acc r => dictSet acc r.groupId ((dictGet acc r.groupId).getD 0 + relWeight r)) []

/-- Step 3 of `expand_keywords_using_graph`: fan out from the top groups to
all their tags, scoring `group_score * edge_weight * 0.5`. -/
def expandTagScores (db : DB) (groupScores : List (Int × ℚ)) (topGroupIds : List Int) :
    List (Int × ℚ) :=
  (db.tagGroupTags.filter (fun r => topGroupIds.contains r.groupId)).foldl
    (fun acc r =>
      let score := (dictGet groupScores r.groupId).getD 0 * relWeight r * (1/2)
      dictSet acc r.tagId ((dictGet acc r.tagId).getD 0 + score)) []

/-- Step 4 of `expand_keywords_using_graph`: fetch the top-`limit` tags by
score and return their names mapped to their scores. -/
def expandResultNames (db : DB) (tagScores : List (Int × ℚ)) (limit : Nat) :
    List (String × ℚ) :=
  let topTagIds := ((tagScores.map (fun p => p.1)).insertionSort
    (fun a b => (dictGet tagScores b).getD 0 ≤ (dictGet tagScores a).getD 0)).take limit
  let resultTags := db.tags.filter (fun t => topTagIds.contains t.id)
  resultTags.foldl (fun acc t => dictSet acc t.name ((dictGet tagScores t.id).getD 0)) []

/-- `expand_keywords_using_graph(keywords, limit)`: resolve keywords to Tags
by normalised key, sum edge weights (`weight or 1.0`) per group, keep the top
5 groups by score, score every tag of those groups, drop the input keywords'
tag ids, and return the top `limit` tag names with their scores. -/
def expandKeywordsUsingGraph (db : DB) (keywords : List String) (limit : Nat) : List (String × ℚ) :=
  if keywords.isEmpty then [] else
  let normalizedKeys := (keywords.filter (fun k => !(pyStrip k == ""))).map (fun k => normKey k)
  if normalizedKeys.isEmpty then [] else
  let initialTags := db.tags.filter (fun t => normalizedKeys.contains t.key)
  if initialTags.isEmpty then [] else
  let initialTagIds := initialTags.map (fun t => t.id)
  let groupScores := expandGroupScores db initialTagIds
  if groupScores.isEmpty then [] else
  let topGroups := (groupScores.insertionSort (fun a b => b.2 ≤ a.2)).take 5
  let topGroupIds := topGroups.map (fun g => g.1)
  let tagScores0 := expandTagScores db groupScores topGroupIds
  let tagScores := initialTagIds.foldl (fun acc tid => dictDel acc tid) tagScores0
  if tagScores.isEmpty then [] else
  expandResultNames db tagScores limit

/-! ### Citation candidate expansion (`recall_enhancement.py`,
`expand_candidates_using_citation_graph`) -/

/-- One outgoing-citation row of the expansion loop: the seeds' cited papers
score one point per citing seed, seeds themselves excluded. -/
def citeOutStep (seedPaperIds : List Int) (acc : List (Int × ℚ)) (c : PaperCitation) :
    List (Int × ℚ) :=
  if seedPaperIds.contains c.citedPaperId then acc
  else dictSet acc c.citedPaperId ((dictGet acc c.citedPaperId).getD 0 + 1)

/-- One incoming-citation row of the expansion loop. -/
def citeInStep (seedPaperIds : List Int) (acc : List (Int × ℚ)) (c : PaperCitation) :
    List (Int × ℚ) :=
  if seedPaperIds.contains c.citingPaperId then acc
  else dictSet acc c.citingPaperId ((dictGet acc c.citingPaperId).getD 0 + 1)

/-- `expand_candidates_using_citation_graph(seed_paper_ids, limit)`: score
papers one citation hop away from the seeds by distinct-direction adjacency
counts, excluding seeds, sorted descending and truncated to `limit`. -/
def expandCandidatesUsingCitationGraph (db : DB) (seedPaperIds : List Int)
    (limit : Nat) (includeCitedBy includeCiting : Bool) : List (Int × ℚ) :=
  if seedPaperIds.isEmpty then [] else
  let scores0 : List (Int × ℚ) :=
    if includeCitedBy then
      (db.paperCitations.filter (fun c => seedPaperIds.contains c.citingPaperId)).foldl
        (citeOutStep seedPaperIds) []
    else []
  let scores1 : List (Int × ℚ) :=
    if includeCiting then
      (db.paperCitations.filter (fun c => seedPaperIds.contains c.citedPaperId)).foldl
        (citeInStep seedPaperIds) scores0
    else scores0
  if scores1.isEmpty then [] else
  let scores2 := seedPaperIds.foldl (fun acc sid => dictDel acc sid) scores1
  (scores2.insertionSort (fun a b => b.2 ≤ a.2)).take limit

/-! ### Citation Network Labeller (`citation_analysis.py`) -/

/-- `_get_or_create_tag`: look up by `(key, category)` and create with source
`citation_analysis` if absent (ids come from the `nextTagId` sequence). -/
def getOrCreateTag (db : DB) (key category name : String) : DB × Tag :=
  match db.tags.find? (fun t => t.key == key && t.category == some category) with
  | some t => (db, t)
  | none =>
    let t : Tag :=
      { id := db.nextTagId, name := name, key := key,
        category := some category, source := some ("citation_analysis") }
    ({ db with tags := db.tags ++ [t], nextTagId := db.nextTagId + 1 }, t)

/-- `_link_paper_tag`: insert the `(paper, tag)` link unless it exists. -/
def linkPaperTag (db : DB) (pid tid : Int) (w : ℚ) : DB :=
  if db.paperTags.any (fun pt => pt.paperId == pid && pt.tagId == tid) then db
  else
    { db with paperTags :=
        db.paperTags ++ [{ paperId := pid, tagId := tid, weight := some w,
                           source := some ("citation_analysis") }] }

/-- `_assign_impact_tags`: rank the papers with `citations_count > 0`
descending; the paper of 0-based rank `i` has percentile `(i / total) * 100`
and is linked to Seminal Work (≤1, weight 1.0), High Impact (≤5, weight 0.9)
or Significant (≤20, weight 0.8). Returns the tag-assignment count. -/
def assignImpactTags (db : DB) : DB × Nat :=
  let papers := (db.papers.filter (fun p => p.citationsCount > 0)).insertionSort
    (fun a b => b.citationsCount ≤ a.citationsCount)
  if papers.isEmpty then (db, 0) else
  let r1 := getOrCreateTag db ("impact_seminal") ("impact") ("Seminal Work")
  let tagSeminal := r1.2
  let r2 := getOrCreateTag r1.1 ("impact_high") ("impact") ("High Impact")
  let tagHigh := r2.2
  let r3 := getOrCreateTag r2.1 ("impact_significant") ("impact") ("Significant")
  let tagSig := r3.2
  let total := papers.length
  papers.enum.foldl
    (fun (acc : DB × Nat) ip =>
      let percentile : ℚ := ((ip.1 : ℚ) / (total : ℚ)) * 100
      if percentile ≤ 1 then (linkPaperTag acc.1 ip.2.id tagSeminal.id 1, acc.2 + 1)
      else if percentile ≤ 5 then (linkPaperTag acc.1 ip.2.id tagHigh.id (9/10), acc.2 + 1)
      else if percentile ≤ 20 then (linkPaperTag acc.1 ip.2.id tagSig.id (8/10), acc.2 + 1)
      else acc)
    (r3.1, 0)

/-- The undirected graph `networkx.Graph()` builds from `add_edges_from`:
nodes in first-mention order; an edge is kept once up to symmetry, and
self-loops are legal edges. -/
structure UGraph where
  nodes : List Int
  edges : List (Int × Int)
deriving DecidableEq, Repr

/-- `G.add_edge(u, v)` of `networkx.Graph` (used via `add_edges_from`). -/
def addUEdge (g : UGraph) (u v : Int) : UGraph :=
  let nodes1 := if g.nodes.contains u then g.nodes else g.nodes ++ [u]
  let nodes2 := if nodes1.contains v then nodes1 else nodes1 ++ [v]
  let edges' :=
    if g.edges.any (fun e => (e.1 == u && e.2 == v) || (e.1 == v && e.2 == u)) then g.edges
    else g.edges ++ [(u, v)]
  { nodes := nodes2, edges := edges' }

/-- The graph `_assign_cluster_tags` builds: every stored citation edge is
added to an undirected `networkx` graph, direction discarded. -/
def buildClusterGraph (citations : List PaperCitation) : UGraph :=
  citations.foldl (fun g c => addUEdge g c.citingPaperId c.citedPaperId) { nodes := [], edges := [] }

/-! ### Semantic Group Matcher (`semantic_groups.py`) -/

/-- One entry of the semantic-group configuration. -/
structure GroupCfg where
  words : List String
  autoLearned : List String
  weight : ℚ
deriving DecidableEq, Repr

/-- An activated group as returned by `detect_and_activate_groups`. -/
structure ActivatedGroup where
  name : String
  strength : ℚ
  matchedWords : List String
  allWords : List String
  weight : ℚ
deriving DecidableEq, Repr

/-- Deduplicate a group's word list: skip empties, strip, keep first
occurrences in order. -/
def dedupWords (ws : List String) : List String :=
  ws.foldl
    (fun acc w =>
      if w == "" then acc
      else
        let lw := pyStrip w
        if !(lw == "") && !(acc.contains lw) then acc ++ [lw] else acc)
    []

/-- `detect_and_activate_groups(text)`: case-insensitive substring match of
every member word; a group activates when at least one word matches, with
strength `matched / total`. -/
def detectAndActivateGroups (groups : List (String × GroupCfg)) (text : String) :
    List (String × ActivatedGroup) :=
  if text == "" then [] else
  let lowerText := pyLower text
  groups.foldl
    (fun acc ng =>
      let allWords := dedupWords (ng.2.words ++ ng.2.autoLearned)
      if allWords.isEmpty then acc else
      let matched := allWords.filter (fun w => strContains lowerText (pyLower w))
      if matched.isEmpty then acc else
      let weight := if ng.2.weight == 0 then 1 else ng.2.weight
      acc ++ [(ng.1,
        { name := ng.1, strength := (matched.length : ℚ) / (allWords.length : ℚ),
          matchedWords := matched, allWords := allWords, weight := weight })])
    []

/-- `expand_keywords(keywords, text)`: strip the keywords, detect activated
groups on `text` (falling back to the joined keywords), then merge the
groups' word lists after the original keywords, deduplicating
case-insensitively while keeping first occurrences. -/
def expandKeywordsGroups (groups : List (String × GroupCfg)) (keywords : List String)
    (text : String) : List String × List (String × ActivatedGroup) :=
  let base := (keywords.filter (fun k => !(k == "") && !(pyStrip k == ""))).map pyStrip
  let joined := if text == "" then String.intercalate (" ") base else text
  let activated := detectAndActivateGroups groups joined
  let extra := activated.foldl (fun acc p => acc ++ p.2.allWords) []
  let merged := (base ++ extra).foldl
    (fun (acc : List String) w =>
      if (acc.map pyLower).contains (pyLower w) then acc else acc ++ [w])
    []
  (merged, activated)

/-! ### Semantic search (`semantic_search.py`) -/

/-- A scored hit. -/
structure SemanticSearchHit where
  paper : Paper
  score : ℝ

/-- The debug info returned by `search`. -/
structure SemanticSearchDebugInfo where
  expandedKeywords : List String
  activatedGroups : List (String × ActivatedGroup)
  totalCandidates : Nat

/-- The running sums of `_cosine_similarity`'s loop over `zip(q, v)`:
`(dot, sq_q, sq_v)`. -/
def cosineAccum (pairs : List (ℚ × ℚ)) : ℚ × ℚ × ℚ :=
  pairs.foldl
    (fun acc p => (acc.1 + p.1 * p.2, acc.2.1 + p.1 * p.1, acc.2.2 + p.2 * p.2))
    (0, 0, 0)

/-- `_cosine_similarity(q, v)`: 0 for empty or length-mismatched vectors and
for zero squared norms, else `dot / (sqrt(sq_q) * sqrt(sq_v))`. -/
noncomputable def cosineSimilarity (q v : List ℚ) : ℝ :=
  if q.isEmpty || v.isEmpty then 0
  else if !(q.length == v.length) then 0
  else
    let acc := cosineAccum (q.zip v)
    if acc.2.1 == 0 || acc.2.2 == 0 then 0
    else (acc.1 : ℝ) / (Real.sqrt (acc.2.1 : ℚ) * Real.sqrt (acc.2.2 : ℚ))

/-- Lines 386-424 of `search`: keep candidates with strictly positive cosine
score; if none, fall back to scoring every candidate; sort descending
(stably) and truncate to `limit` when `limit > 0`. -/
noncomputable def scorerStage (queryVec : List ℚ) (candidates : List Paper) (limit : Int) :
    List SemanticSearchHit :=
  let hits := candidates.filterMap
    (fun p =>
      match p.embedding with
      | none => none
      | some v =>
        let s := cosineSimilarity queryVec v
        if s ≤ 0 then none else some ⟨p, s⟩)
  let hits :=
    if hits.isEmpty && !candidates.isEmpty then
      let fallback := candidates.filterMap
        (fun p => p.embedding.map (fun v => (⟨p, cosineSimilarity queryVec v⟩ : SemanticSearchHit)))
      if fallback.isEmpty then hits else fallback
    else hits
  let sorted := hits.insertionSort (fun a b => b.score ≤ a.score)
  if limit > 0 then sorted.take limit.toNat else sorted

/-- The debug record `_apply_tag_recall_enhancement` returns (a structure in
place of the Python dict; absent keys are `none`). -/
structure EnhanceDebug where
  enabled : Bool
  reason : Option String
  alphaUsed : Option ℚ
  seedSize : Option Nat
  tagCount : Option Nat
  tagGroupExpansionGroups : Option Nat
  tagGroupExpansionNewTags : Option Nat
  citationExpansionCount : Option Nat
  newCandidatesFromCitation : Option Nat

/-- Step 2 of the enhancement: harvest the seeds' `PaperTag` rows into
`tag_counts` (summed weights, NULL weight read as 1.0) and the per-paper
tag map. -/
def harvestSeedTags (db : DB) (seedPaperIds : List Int) :
    List (Int × ℚ) × List (Int × List PaperTag) :=
  let rows := db.paperTags.filter (fun pt => seedPaperIds.contains pt.paperId)
  rows.foldl
    (fun acc pt =>
      let w := pt.weight.getD 1
      (dictSet acc.1 pt.tagId ((dictGet acc.1 pt.tagId).getD 0 + w),
       dictSet acc.2 pt.paperId ((dictGet acc.2 pt.paperId).getD [] ++ [pt])))
    ([], [])

/-- Step 3 of the enhancement: tag-group propagation. Every unseen member tag
of a group containing a harvested tag is seeded with count 0.5 (bounded fetch
of 500 membership rows). Also returns the two propagation-debug counters. -/
def propagateTagCounts (db : DB) (tagCounts : List (Int × ℚ)) :
    List (Int × ℚ) × Option Nat × Option Nat :=
  let seedTagIds := tagCounts.map (fun p => p.1)
  let groupRelations := db.tagGroupTags.filter (fun r => seedTagIds.contains r.tagId)
  let involvedGroupIds := (groupRelations.map (fun r => r.groupId)).eraseDups
  if involvedGroupIds.isEmpty then (tagCounts, none, none)
  else
    let groupSiblings := (db.tagGroupTags.filter
      (fun r => involvedGroupIds.contains r.groupId)).take 500
    let res := groupSiblings.foldl
      (fun (acc : List (Int × ℚ) × Nat) rel =>
        if dictMem acc.1 rel.tagId then acc
        else (acc.1 ++ [(rel.tagId, 1/2)], acc.2 + 1))
      (tagCounts, 0)
    (res.1, some involvedGroupIds.length, some res.2)

/-- Step 5 of the enhancement: fetch the tags of the hit papers that are not
in the seed tag map yet. -/
def fillPaperTagsMap (db : DB) (allPaperIds : List Int)
    (paperTagsMap : List (Int × List PaperTag)) : List (Int × List PaperTag) :=
  let remainingIds := allPaperIds.filter (fun pid => !(dictMem paperTagsMap pid))
  if remainingIds.isEmpty then paperTagsMap
  else
    (db.paperTags.filter (fun pt => remainingIds.contains pt.paperId)).foldl
      (fun m pt => dictSet m pt.paperId ((dictGet m pt.paperId).getD [] ++ [pt]))
      paperTagsMap

/-- Step 6.1 of the enhancement: per-paper tag score, skipping tags whose
boost is missing or zero (`if not boost: continue`). -/
def computePaperTagScore (paperTagsMap : List (Int × List PaperTag))
    (tagBoost : List (Int × ℚ)) : List (Int × ℚ) :=
  paperTagsMap.foldl
    (fun acc pp =>
      let s := pp.2.foldl
        (fun s pt =>
          match dictGet tagBoost pt.tagId with
          | none => s
          | some b => if b == 0 then s else s + b * (pt.weight.getD 1))
        0
      dictSet acc pp.1 s)
    []

/-- Step 7 of the enhancement: per candidate, normalise the tag and citation
scores, blend `graph_score = 0.6 * tag_signal + 0.4 * citation_signal`, and
add `alpha * graph_score` to the embedding score. -/
noncomputable def combineScores (paperTagScore paperCitationScore : List (Int × ℚ))
    (maxTagScore maxCitScore alpha : ℚ) (allHits : List SemanticSearchHit) :
    List SemanticSearchHit :=
  allHits.map
    (fun h =>
      let tagSignal : ℚ :=
        match dictGet paperTagScore h.paper.id with
        | some s => s / maxTagScore
        | none => 0
      let citSignal : ℚ :=
        match dictGet paperCitationScore h.paper.id with
        | some s => s / maxCitScore
        | none => 0
      let graphScore : ℚ := (6/10) * tagSignal + (4/10) * citSignal
      (⟨h.paper, h.score + ((alpha * graphScore : ℚ) : ℝ)⟩ : SemanticSearchHit))

/-- `_apply_tag_recall_enhancement(db, hits, max_seed, alpha)`: harvest seed
tags, propagate through tag groups, expand candidates through the citation
graph, blend `0.6 * tag_signal + 0.4 * citation_signal` into the embedding
scores with factor `alpha`, and re-sort descending. -/
noncomputable def applyTagRecallEnhancement (db : DB) (hits : List SemanticSearchHit)
    (maxSeed : Nat) (alpha : ℚ) (useGraphPropagation : Bool) :
    List SemanticSearchHit × EnhanceDebug :=
  if hits.isEmpty then
    (hits, ⟨false, some ("no_hits"), none, none, none, none, none, none, none⟩)
  else
  let seedHits := hits.take maxSeed
  let seedPaperIds := seedHits.map (fun h => h.paper.id)
  if seedPaperIds.isEmpty then
    (hits, ⟨false, some ("no_seed_ids"), none, none, none, none, none, none, none⟩)
  else
  let harvested := harvestSeedTags db seedPaperIds
  let tagCounts0 := harvested.1
  let paperTagsMap := harvested.2
  let propagated :=
    if useGraphPropagation && !tagCounts0.isEmpty then propagateTagCounts db tagCounts0
    else (tagCounts0, none, none)
  let tagCounts := propagated.1
  let maxCount := dictMaxD tagCounts 0
  let tagBoost := if maxCount > 0 then tagCounts.map (fun p => (p.1, p.2 / maxCount)) else []
  let allPaperIds := hits.map (fun h => h.paper.id)
  let paperTagsMap2 := fillPaperTagsMap db allPaperIds paperTagsMap
  let paperTagScore := computePaperTagScore paperTagsMap2 tagBoost
  let maxTagScore0 := dictMaxD paperTagScore 1
  let maxTagScore := if maxTagScore0 == 0 then 1 else maxTagScore0
  let citationPart :=
    if useGraphPropagation then
      let cc := expandCandidatesUsingCitationGraph db seedPaperIds 50 true true
      let newIds := (cc.map (fun p => p.1)).filter (fun pid => !(allPaperIds.contains pid))
      if newIds.isEmpty then (cc, ([] : List SemanticSearchHit), some cc.length, none)
      else
        let newPapers := db.papers.filter (fun p => newIds.contains p.id)
        (cc, newPapers.map (fun p => (⟨p, 0⟩ : SemanticSearchHit)),
         some cc.length, some newPapers.length)
    else ([], [], none, none)
  let paperCitationScore := citationPart.1
  let expandedHits := citationPart.2.1
  let maxCitScore0 := dictMaxD paperCitationScore 1
  let maxCitScore := if maxCitScore0 == 0 then 1 else maxCitScore0
  let allHits := hits ++ expandedHits
  let enhanced := combineScores paperTagScore paperCitationScore maxTagScore maxCitScore alpha allHits
  let sorted := enhanced.insertionSort (fun a b => b.score ≤ a.score)
  (sorted,
   ⟨true, none, some alpha, some seedPaperIds.length, some tagBoost.length,
    propagated.2.1, propagated.2.2, citationPart.2.2.1, citationPart.2.2.2⟩)

/-- Steps 1-1.1 of `search`: semantic-group expansion of the keywords merged
with the tag-graph expansion (case-insensitive dedup, original order kept). -/
def searchExpandedKeywords (groups : List (String × GroupCfg)) (db : DB)
    (keywords : List String) : List String × List (String × ActivatedGroup) :=
  let expanded := expandKeywordsGroups groups keywords (String.intercalate (" ") keywords)
  let graphExpanded := expandKeywordsUsingGraph db keywords 10
  let merged := graphExpanded.foldl
    (fun (acc : List String) p =>
      if (acc.map pyLower).contains (pyLower p.1) then acc else acc ++ [p.1])
    expanded.1
  (merged, expanded.2)

/-- The query text sent to the Embedding Provider: the expanded keywords
joined with a comma. -/
def searchQueryText (groups : List (String × GroupCfg)) (db : DB)
    (keywords : List String) : String :=
  String.intercalate (", ") (searchExpandedKeywords groups db keywords).1

/-- The candidate pool of `search`: papers with a non-NULL embedding inside
the year range (a NULL year fails a year bound, as in SQL). -/
def searchCandidates (db : DB) (yearFrom yearTo : Option Int) : List Paper :=
  db.papers.filter
    (fun p =>
      p.embedding.isSome &&
      (match yearFrom with
       | none => true
       | some y => match p.year with
         | none => false
         | some py => decide (py ≥ y)) &&
      (match yearTo with
       | none => true
       | some y => match p.year with
         | none => false
         | some py => decide (py ≤ y)))

/-- `search(keywords, year_from, year_to, limit)` with the Embedding Provider
passed as a function (`embed` returning `none` models a provider failure).
Returns the ranked hits and the debug info; the best-effort recall-log write
does not affect the returned value and is not modelled. -/
noncomputable def search (groups : List (String × GroupCfg))
    (embed : String → Option (List ℚ)) (db : DB) (keywords : List String)
    (yearFrom yearTo : Option Int) (limit : Int) :
    List SemanticSearchHit × SemanticSearchDebugInfo :=
  if keywords.isEmpty then ([], ⟨[], [], 0⟩)
  else
    let expanded := searchExpandedKeywords groups db keywords
    match embed (searchQueryText groups db keywords) with
    | none => ([], ⟨expanded.1, expanded.2, 0⟩)
    | some queryVec =>
      let candidates := searchCandidates db yearFrom yearTo
      let hits := scorerStage queryVec candidates limit
      let enhanced := applyTagRecallEnhancement db hits 50 (3/10) true
      (enhanced.1, ⟨expanded.1, expanded.2, candidates.length⟩)

/-! ### Concrete database states used by witnesses and counterexamples -/

/-- An empty database. -/
def emptyDB : DB :=
  { papers := [], tags := [], tagGroups := [], tagGroupTags := [], paperTags := [],
    paperCitations := [], recallLogs := [], nextTagId := 1 }

/-- The spec's learner scenario: one tag `ai`, one group `k-ai-group`, their
edge at weight 1.0, and ten `click` log rows for the pair. -/
def dbC4 : DB :=
  { emptyDB with
    tags := [⟨1, "ai", "ai", none, none⟩],
    tagGroups := [⟨1, "g", "k-ai-group"⟩],
    tagGroupTags := [⟨1, 1, some 1⟩],
    recallLogs := List.replicate 10 ⟨"click", some ["ai"], some ["k-ai-group"], 0⟩,
    nextTagId := 2 }

/-- The spec's impact scenario: a 100-paper corpus with distinct citation
counts 1..100 (paper id `i` has `citations_count = i`). -/
def dbC1 : DB :=
  { emptyDB with
    papers := (List.range 100).map (fun i => ⟨(i : Int) + 1, none, (i : Int) + 1, none⟩) }

/-! ### Lemmas about the Interaction Learner -/

/-- `capWeight` is exactly `min (· ) 10`. -/
theorem capWeight_eq_min (x : ℚ) : capWeight x = min x 10 := by
  unfold capWeight
  rcases le_or_lt x 10 with h | h
  · rw [if_neg (not_lt.mpr h), min_eq_left h]
  · rw [if_pos h, min_eq_right h.le]

/-- Placeholder edge used to state positional facts with `List.getD`. -/
def defaultEdge : TagGroupTag := ⟨0, 0, none⟩

/-- How one learner run may change the edge table: it only grows; each
pre-existing position keeps its `(group, tag)` identity and its weight, when
within `[0, 10]`, never decreases and never exceeds 10; and every appended
edge has weight within `[0, 10]`. -/
def EdgeEvolves (es es' : List TagGroupTag) : Prop :=
  es.length ≤ es'.length ∧
  (∀ i, i < es.length →
    ((es'.getD i defaultEdge).groupId = (es.getD i defaultEdge).groupId ∧
     (es'.getD i defaultEdge).tagId = (es.getD i defaultEdge).tagId ∧
     ∀ w, (es.getD i defaultEdge).weight = some w → 0 ≤ w → w ≤ 10 →
       ∃ w', (es'.getD i defaultEdge).weight = some w' ∧ w ≤ w' ∧ w' ≤ 10)) ∧
  (∀ i, es.length ≤ i → i < es'.length →
    ∃ w', (es'.getD i defaultEdge).weight = some w' ∧ 0 ≤ w' ∧ w' ≤ 10)

theorem edgeEvolves_refl (es : List TagGroupTag) : EdgeEvolves es es :=
  ⟨le_refl _,
   fun _ _ => ⟨rfl, rfl, fun w hw _ h10 => ⟨w, hw, le_refl w, h10⟩⟩,
   fun _ h1 h2 => absurd h2 (not_lt.mpr h1)⟩

theorem edgeEvolves_trans {es es' es'' : List TagGroupTag}
    (h1 : EdgeEvolves es es') (h2 : EdgeEvolves es' es'') : EdgeEvolves es es'' := by
  obtain ⟨l1, p1, n1⟩ := h1
  obtain ⟨l2, p2, n2⟩ := h2
  refine ⟨l1.trans l2, ?_, ?_⟩
  · intro i hi
    have hi' : i < es'.length := lt_of_lt_of_le hi l1
    obtain ⟨g1, t1, w1⟩ := p1 i hi
    obtain ⟨g2, t2, w2⟩ := p2 i hi'
    refine ⟨g2.trans g1, t2.trans t1, ?_⟩
    intro w hw h0 h10
    obtain ⟨wa, hwa, hlea, hcapa⟩ := w1 w hw h0 h10
    obtain ⟨wb, hwb, hleb, hcapb⟩ := w2 wa hwa (le_trans h0 hlea) hcapa
    exact ⟨wb, hwb, hlea.trans hleb, hcapb⟩
  · intro i hi hi''
    by_cases h : i < es'.length
    · obtain ⟨wa, hwa, h0a, h10a⟩ := n1 i hi h
      obtain ⟨_, _, w2⟩ := p2 i h
      obtain ⟨wb, hwb, hleb, hcapb⟩ := w2 wa hwa h0a h10a
      exact ⟨wb, hwb, le_trans h0a hleb, hcapb⟩
    · exact n2 i (not_lt.mp h) hi''

theorem updateFirstEdge_length (es : List TagGroupTag) (gid tid : Int) (inc : ℚ) :
    (updateFirstEdge es gid tid inc).length = es.length := by
  induction es with
  | nil => rfl
  | cons e rest ih =>
    rw [updateFirstEdge]
    by_cases hm : (e.groupId == gid && e.tagId == tid) = true
    · rw [if_pos hm]; simp
    · rw [if_neg hm]; simp [ih]

theorem updateFirstEdge_evolves (es : List TagGroupTag) (gid tid : Int) (inc : ℚ)
    (hinc : 0 ≤ inc) : EdgeEvolves es (updateFirstEdge es gid tid inc) := by
  induction es with
  | nil => exact edgeEvolves_refl []
  | cons e rest ih =>
    rw [updateFirstEdge]
    by_cases hm : (e.groupId == gid && e.tagId == tid) = true
    · rw [if_pos hm]
      refine ⟨by simp, ?_, ?_⟩
      · intro i hi
        cases i with
        | zero =>
          refine ⟨rfl, rfl, ?_⟩
          intro w hw h0 h10
          have hw' : e.weight = some w := hw
          refine ⟨capWeight (e.weight.getD 0 + inc), rfl, ?_, ?_⟩
          · rw [hw', capWeight_eq_min]
            simp only [Option.getD_some]
            exact le_min (le_add_of_nonneg_right hinc) h10
          · rw [capWeight_eq_min]
            exact min_le_right _ _
        | succ n =>
          exact ⟨rfl, rfl, fun w hw _ h10 => ⟨w, hw, le_refl w, h10⟩⟩
      · intro i h1 h2
        simp only [List.length_cons] at h1 h2
        exact absurd h2 (not_lt.mpr h1)
    · rw [if_neg hm]
      obtain ⟨lh, ph, nh⟩ := ih
      refine ⟨by simpa using lh, ?_, ?_⟩
      · intro i hi
        cases i with
        | zero => exact ⟨rfl, rfl, fun w hw _ h10 => ⟨w, hw, le_refl w, h10⟩⟩
        | succ n =>
          have hr := ph n (by simpa using hi)
          exact hr
      · intro i h1 h2
        simp only [List.length_cons, updateFirstEdge_length] at h1 h2
        exact absurd h2 (not_lt.mpr h1)

theorem edgeEvolves_append (es : List TagGroupTag) (e : TagGroupTag) (w0 : ℚ)
    (hw : e.weight = some w0) (h0 : 0 ≤ w0) (h10 : w0 ≤ 10) :
    EdgeEvolves es (es ++ [e]) := by
  refine ⟨by simp, ?_, ?_⟩
  · intro i hi
    rw [List.getD_append _ _ _ _ hi]
    exact ⟨rfl, rfl, fun w hww _ hb => ⟨w, hww, le_refl w, hb⟩⟩
  · intro i h1 h2
    have hlen : i = es.length := by
      simp only [List.length_append, List.length_singleton] at h2
      omega
    subst hlen
    have : (es ++ [e]).getD es.length defaultEdge = e := by
      rw [List.getD_eq_getElem?_getD, List.getElem?_append_right (le_refl _)]
      simp
    rw [this]
    exact ⟨w0, hw, h0, h10⟩

theorem learnEdge_evolves (db : DB) (gid tid : Int) (inc : ℚ)
    (h0 : 0 ≤ inc) (h9 : inc ≤ 9) :
    EdgeEvolves db.tagGroupTags (learnEdge db gid tid inc).tagGroupTags := by
  rw [learnEdge]
  cases hfe : findEdge db.tagGroupTags gid tid with
  | some e => exact updateFirstEdge_evolves _ _ _ _ h0
  | none =>
    exact edgeEvolves_append _ _ (1 + inc) rfl (by linarith) (by linarith)

theorem learnKeyword_evolves (db : DB) (gid : Int) (inc : ℚ) (kw : String)
    (h0 : 0 ≤ inc) (h9 : inc ≤ 9) :
    EdgeEvolves db.tagGroupTags (learnKeyword db gid inc kw).tagGroupTags := by
  rw [learnKeyword]
  cases h : db.tags.find? (fun t => t.key == normKey kw) with
  | some t => exact learnEdge_evolves db gid t.id inc h0 h9
  | none =>
    exact learnEdge_evolves
      { db with tags := db.tags ++ [_], nextTagId := db.nextTagId + 1 } gid _ inc h0 h9

theorem foldl_evolves {β : Type} (f : DB → β → DB)
    (h : ∀ d x, EdgeEvolves d.tagGroupTags (f d x).tagGroupTags) :
    ∀ (l : List β) (db : DB), EdgeEvolves db.tagGroupTags ((l.foldl f db).tagGroupTags)
  | [], _ => edgeEvolves_refl _
  | x :: l, db => edgeEvolves_trans (h db x) (foldl_evolves f h l (f db x))

theorem learnGroup_evolves (db : DB) (inc : ℚ) (kws : List String) (gk : String)
    (h0 : 0 ≤ inc) (h9 : inc ≤ 9) :
    EdgeEvolves db.tagGroupTags (learnGroup db inc kws gk).tagGroupTags := by
  rw [learnGroup]
  cases h : db.tagGroups.find? (fun g => g.key == gk) with
  | none => exact edgeEvolves_refl _
  | some g =>
    exact foldl_evolves _ (fun d kw => learnKeyword_evolves d g.id inc kw h0 h9) kws db

theorem processLog_evolves (db : DB) (log : RecallLog) :
    EdgeEvolves db.tagGroupTags (processLog db log).tagGroupTags := by
  rw [processLog]
  cases log.queryKeywords with
  | none => exact edgeEvolves_refl _
  | some qks =>
    cases log.groupKeys with
    | none => exact edgeEvolves_refl _
    | some gks =>
      dsimp only
      by_cases he : (qks.isEmpty || gks.isEmpty) = true
      · rw [if_pos he]; exact edgeEvolves_refl _
      · rw [if_neg he]
        have hb : 0 ≤ (if log.eventType == "click" then (1:ℚ)/10 else 1/2) ∧
            (if log.eventType == "click" then (1:ℚ)/10 else 1/2) ≤ 9 := by
          split <;> norm_num
        exact foldl_evolves _
          (fun d gk => learnGroup_evolves d _ qks gk hb.1 hb.2) gks db

/-- C3: TagGroupTag weight invariant under the Interaction Learner. A run of
`analyze_logs_and_update_graph` over any log window only grows the edge
table; every pre-existing edge with weight in `[0, 10]` keeps its identity,
its weight never decreases and never exceeds 10.0, and every edge the learner
creates has weight in `[0, 10]`. -/
theorem c3_weight_invariant (db : DB) (cutoff : Int) :
    EdgeEvolves db.tagGroupTags (analyzeLogsAndUpdateGraph db cutoff).tagGroupTags := by
  rw [analyzeLogsAndUpdateGraph]
  exact foldl_evolves processLog (fun d x => processLog_evolves d x) _ db

/-- C3 witness: on the concrete ten-click scenario state, the invariant
instantiates to the edge at position 0 (weight 1.0 before the run): after the
run its weight is some `w'` with `1 ≤ w' ≤ 10`. -/
theorem c3_weight_invariant_witness :
    ∃ w', ((analyzeLogsAndUpdateGraph dbC4 0).tagGroupTags.getD 0 defaultEdge).weight = some w' ∧
      (1 : ℚ) ≤ w' ∧ w' ≤ 10 :=
  ((c3_weight_invariant dbC4 0).2.1 0 (by with_unfolding_all decide)).2.2 1
    (by with_unfolding_all decide) (by norm_num) (by norm_num)

/-- Updating the first matching edge is visible through `findEdge`: the found
row is the old row with weight `capWeight (old-or-0 + inc)`. -/
theorem findEdge_updateFirstEdge (es : List TagGroupTag) (gid tid : Int) (inc : ℚ)
    (e : TagGroupTag) (h : findEdge es gid tid = some e) :
    findEdge (updateFirstEdge es gid tid inc) gid tid =
      some { e with weight := some (capWeight (e.weight.getD 0 + inc)) } := by
  induction es with
  | nil => simp [findEdge] at h
  | cons e0 rest ih =>
    by_cases hm : (e0.groupId == gid && e0.tagId == tid) = true
    · have he0 : e0 = e := by
        rw [findEdge,
          @List.find?_cons_of_pos _ (fun x => x.groupId == gid && x.tagId == tid) e0 rest hm] at h
        exact Option.some.inj h
      subst he0
      rw [updateFirstEdge, if_pos hm, findEdge,
        @List.find?_cons_of_pos _ (fun x => x.groupId == gid && x.tagId == tid)
          { e0 with weight := some (capWeight (e0.weight.getD 0 + inc)) }
          rest hm]
    · rw [findEdge,
        @List.find?_cons_of_neg _ (fun x => x.groupId == gid && x.tagId == tid) e0 rest hm] at h
      rw [updateFirstEdge, if_neg hm, findEdge,
        @List.find?_cons_of_neg _ (fun x => x.groupId == gid && x.tagId == tid) e0
          (updateFirstEdge rest gid tid inc) hm]
      exact ih h

/-- The keyword step reduces to the edge step when the Tag resolves. -/
theorem learnKeyword_found (db : DB) (gid : Int) (inc : ℚ) (kw : String) (t : Tag)
    (hfind : db.tags.find? (fun t' => t'.key == normKey kw) = some t) :
    learnKeyword db gid inc kw = learnEdge db gid t.id inc := by
  rw [learnKeyword]
  simp only [hfind]

/-- The edge step, when the edge exists, performs the in-place update. -/
theorem learnEdge_found (db : DB) (gid tid : Int) (inc : ℚ) (e : TagGroupTag)
    (hedge : findEdge db.tagGroupTags gid tid = some e) :
    learnEdge db gid tid inc =
      { db with tagGroupTags := updateFirstEdge db.tagGroupTags gid tid inc } := by
  rw [learnEdge]
  simp only [hedge]

/-- The keyword step lazily creates the Tag when it does not resolve. -/
theorem learnKeyword_missing (db : DB) (gid : Int) (inc : ℚ) (kw : String)
    (hfind : db.tags.find? (fun t' => t'.key == normKey kw) = none) :
    learnKeyword db gid inc kw =
      learnEdge
        { db with
          tags := db.tags ++
            [{ id := db.nextTagId, name := kw, key := normKey kw,
               category := some ("user_query"), source := some ("learned_from_log") }],
          nextTagId := db.nextTagId + 1 }
        gid db.nextTagId inc := by
  rw [learnKeyword]
  simp only [hfind]

/-- The tags table is untouched by the edge step. -/
theorem learnEdge_tags (db : DB) (gid tid : Int) (inc : ℚ) :
    (learnEdge db gid tid inc).tags = db.tags := by
  rw [learnEdge]
  cases findEdge db.tagGroupTags gid tid <;> rfl

set_option maxRecDepth 1000000 in
/-- C4: the Interaction Learner's update rule. (a) For a `(group, keyword)`
pair whose keyword resolves to Tag `t` and whose edge `(gid, t.id)` exists
with weight `w`, processing the pair updates that edge's weight to
`min (w + increment) 10`. (b) When the keyword resolves to no Tag, a Tag with
the normalised key, category `user_query` and source `learned_from_log` is
created. (c) Ten `click` rows for the pair (keyword `ai`, group `k-ai-group`)
starting from an edge weight of 1.0 leave the edge at exactly 2.0. -/
theorem c4_update_rule :
    (∀ (db : DB) (gid : Int) (inc : ℚ) (kw : String) (t : Tag) (e : TagGroupTag) (w : ℚ),
      db.tags.find? (fun t' => t'.key == normKey kw) = some t →
      findEdge db.tagGroupTags gid t.id = some e →
      e.weight = some w →
      findEdge (learnKeyword db gid inc kw).tagGroupTags gid t.id =
        some { e with weight := some (min (w + inc) 10) }) ∧
    (∀ (db : DB) (gid : Int) (inc : ℚ) (kw : String),
      db.tags.find? (fun t' => t'.key == normKey kw) = none →
      ∃ t ∈ (learnKeyword db gid inc kw).tags,
        t.key = normKey kw ∧ t.category = some ("user_query") ∧
        t.source = some ("learned_from_log")) ∧
    (analyzeLogsAndUpdateGraph dbC4 0).tagGroupTags = [⟨1, 1, some 2⟩] := by
  refine ⟨?_, ?_, ?_⟩
  · intro db gid inc kw t e w hfind hedge hw
    rw [learnKeyword_found db gid inc kw t hfind, learnEdge_found db gid t.id inc e hedge]
    have hres := findEdge_updateFirstEdge db.tagGroupTags gid t.id inc e hedge
    rw [hres, hw]
    simp [capWeight_eq_min]
  · intro db gid inc kw hfind
    rw [learnKeyword_missing db gid inc kw hfind]
    refine ⟨{ id := db.nextTagId, name := kw, key := normKey kw,
              category := some ("user_query"), source := some ("learned_from_log") },
            ?_, rfl, rfl, rfl⟩
    rw [learnEdge_tags]
    exact List.mem_append_right _ (List.mem_singleton.mpr rfl)
  · with_unfolding_all decide

/-- C4 witness: a concrete instance of rule (a) — one `click` pair on an
existing edge of weight 1.0 yields `min (1 + 0.1) 10`. -/
theorem c4_update_rule_witness :
    dbC4.tags.find? (fun t' => t'.key == normKey ("ai")) = some ⟨1, "ai", "ai", none, none⟩ ∧
    findEdge dbC4.tagGroupTags 1 1 = some ⟨1, 1, some 1⟩ ∧
    findEdge (learnKeyword dbC4 1 (1/10) ("ai")).tagGroupTags 1 1 =
      some ⟨1, 1, some (min ((1:ℚ) + 1/10) 10)⟩ :=
  ⟨by with_unfolding_all decide, by with_unfolding_all decide,
   c4_update_rule.1 dbC4 1 (1/10) ("ai") ⟨1, "ai", "ai", none, none⟩ ⟨1, 1, some 1⟩ 1
     (by with_unfolding_all decide) (by with_unfolding_all decide)
     (by with_unfolding_all decide)⟩

set_option maxRecDepth 4000000 in
/-- C1 counterexample: on the 100-paper corpus with distinct citation counts
1..100, the claim "exactly the top 1 paper gets Seminal Work" is false — the
Seminal Work tag is linked to a number of papers different from 1 (the code
computes the percentile of 0-based rank `i` as `(i / total) * 100`, so both
rank 0 and rank 1 are at percentile ≤ 1%). -/
theorem c1_counterexample :
    ¬ (∀ t ∈ (assignImpactTags dbC1).1.tags, t.name = "Seminal Work" →
        ((assignImpactTags dbC1).1.paperTags.filter (fun pt => pt.tagId == t.id)).length = 1) := by
  with_unfolding_all decide

set_option maxRecDepth 4000000 in
/-- C1 (amended): impact-tag labelling with percentile of 0-based rank `i`
computed as `(i / total) * 100` over the filtered set. On the 100-paper
corpus with distinct citation counts 1..100, exactly the top 2 papers (ranks
0 and 1, both at percentile ≤ 1) get "Seminal Work" with weight 1.0, the
next 4 get "High Impact" with weight 0.9, and the next 15 get "Significant"
with weight 0.8. -/
theorem c1_impact_scenario :
    ((assignImpactTags dbC1).1.tags.map (fun t => (t.id, t.name))) =
      [(1, "Seminal Work"), (2, "High Impact"), (3, "Significant")] ∧
    ((assignImpactTags dbC1).1.paperTags.filter (fun pt => pt.tagId == 1)).map
      (fun pt => (pt.paperId, pt.weight)) = [(100, some 1), (99, some 1)] ∧
    ((assignImpactTags dbC1).1.paperTags.filter (fun pt => pt.tagId == 2)).map
      (fun pt => (pt.paperId, pt.weight)) =
      [(98, some (9/10)), (97, some (9/10)), (96, some (9/10)), (95, some (9/10))] ∧
    ((assignImpactTags dbC1).1.paperTags.filter (fun pt => pt.tagId == 3)).map
      (fun pt => pt.paperId) = [94, 93, 92, 91, 90, 89, 88, 87, 86, 85, 84, 83, 82, 81, 80] ∧
    ((assignImpactTags dbC1).1.paperTags.filter (fun pt => pt.tagId == 3)).all
      (fun pt => pt.weight == some (8/10)) = true ∧
    (assignImpactTags dbC1).2 = 21 := by
  refine ⟨?_, ?_, ?_, ?_, ?_, ?_⟩ <;> with_unfolding_all decide

/-! ### Lemmas about the keyword expansion (claim C7) -/

theorem mem_of_mem_dictSet {κ α : Type} [BEq κ] (d : List (κ × α)) (k : κ) (v : α)
    (p : κ × α) (h : p ∈ dictSet d k v) : p.1 = k ∨ p ∈ d := by
  rw [dictSet] at h
  split at h
  · rcases List.mem_map.mp h with ⟨q, hq, he⟩
    by_cases hqk : (q.1 == k) = true
    · rw [if_pos hqk] at he
      left
      rw [← he]
    · rw [if_neg hqk] at he
      right
      rw [← he]
      exact hq
  · rcases List.mem_append.mp h with h1 | h1
    · right
      exact h1
    · left
      rw [List.mem_singleton.mp h1]
  
theorem mem_of_mem_foldl_dictDel {κ α : Type} [BEq κ] :
    ∀ (ids : List κ) (d : List (κ × α)) (p : κ × α),
      p ∈ ids.foldl (fun acc i => dictDel acc i) d → p ∈ d
  | [], _, _, h => h
  | i :: ids, d, p, h => by
    have hin := mem_of_mem_foldl_dictDel ids (dictDel d i) p h
    exact List.mem_of_mem_filter hin

theorem keys_foldl_dictDel {κ α : Type} [BEq κ] [LawfulBEq κ] :
    ∀ (ids : List κ) (d : List (κ × α)) (k : κ), k ∈ ids →
      ∀ p ∈ ids.foldl (fun acc i => dictDel acc i) d, p.1 ≠ k
  | [], _, _, hk, _, _ => absurd hk (List.not_mem_nil _)
  | i :: ids, d, k, hk, p, hp => by
    rcases List.mem_cons.mp hk with rfl | hk'
    · have hin := mem_of_mem_foldl_dictDel ids (dictDel d k) p hp
      have hprop := List.of_mem_filter hin
      simpa using hprop
    · exact keys_foldl_dictDel ids (dictDel d i) k hk' p hp

theorem mem_keys_foldl_dictSet (g : Tag → ℚ) :
    ∀ (l : List Tag) (init : List (String × ℚ)) (k : String),
      k ∈ (l.foldl (fun acc t => dictSet acc t.name (g t)) init).map (fun p => p.1) →
      k ∈ init.map (fun p => p.1) ∨ ∃ t ∈ l, t.name = k
  | [], _, _, h => Or.inl h
  | t0 :: l, init, k, h => by
    rcases mem_keys_foldl_dictSet g l (dictSet init t0.name (g t0)) k h with h1 | ⟨t, ht, he⟩
    · rcases List.mem_map.mp h1 with ⟨p, hp, hpk⟩
      rcases mem_of_mem_dictSet _ _ _ _ hp with he | hin
      · exact Or.inr ⟨t0, List.mem_cons_self _ _, by rw [← hpk, he]⟩
      · exact Or.inl (List.mem_map.mpr ⟨p, hin, hpk⟩)
    · exact Or.inr ⟨t, List.mem_cons_of_mem _ ht, he⟩

/-- Every name returned by the result step belongs to a stored tag whose id
still has an entry in `tagScores`. -/
theorem expandResultNames_keys (db : DB) (tagScores : List (Int × ℚ)) (limit : Nat)
    (k : String) (h : k ∈ (expandResultNames db tagScores limit).map (fun p => p.1)) :
    ∃ t ∈ db.tags, t.name = k ∧ t.id ∈ tagScores.map (fun p => p.1) := by
  rw [expandResultNames] at h
  rcases mem_keys_foldl_dictSet _ _ _ _ h with h1 | ⟨t, ht, hname⟩
  · simp at h1
  · have hf := List.mem_filter.mp ht
    refine ⟨t, hf.1, hname, ?_⟩
    have hid : t.id ∈ ((tagScores.map (fun p => p.1)).insertionSort
        (fun a b => (dictGet tagScores b).getD 0 ≤ (dictGet tagScores a).getD 0)).take limit := by
      have := hf.2
      simpa [List.contains] using this
    have hid2 := List.mem_of_mem_take hid
    exact (List.mem_insertionSort _).mp hid2

/-- C7 counterexample state: tag 1 has key `x` (resolved from keyword `X`),
tag 2 has key `y` but display name `X`; both belong to group 1. -/
def dbC7 : DB :=
  { emptyDB with
    tags := [⟨1, "x", "x", none, none⟩, ⟨2, "X", "y", none, none⟩],
    tagGroups := [⟨1, "g", "g"⟩],
    tagGroupTags := [⟨1, 1, some 1⟩, ⟨1, 2, some 1⟩],
    nextTagId := 3 }

/-- C7 counterexample: `expand_keywords_using_graph(["X"])` returns `"X"` in
its result — the exclusion removes the tag *resolved from* the keyword by
normalised key, but a differently-keyed tag whose display name is `"X"` is
returned. -/
theorem c7_counterexample :
    (expandKeywordsUsingGraph dbC7 ["X"] 10).map (fun p => p.1) = ["X"] := by
  with_unfolding_all decide

/-- C7 (amended): the expansion never returns an *input keyword* provided
every stored tag's key is its normalised (stripped, lower-cased) name — which
holds for all tags the core itself creates. In general only the tags resolved
from the keywords (by normalised key) are excluded, so a differently-keyed
tag sharing the display name can still be returned. -/
theorem c7_keyword_exclusion (db : DB) (keywords : List String) (limit : Nat)
    (hsane : ∀ t ∈ db.tags, t.key = normKey t.name)
    (k : String) (hk : k ∈ keywords) (hne : ¬(pyStrip k = "")) :
    k ∉ (expandKeywordsUsingGraph db keywords limit).map (fun p => p.1) := by
  intro hmem
  rw [expandKeywordsUsingGraph] at hmem
  dsimp only at hmem
  split at hmem
  · simp at hmem
  · split at hmem
    · simp at hmem
    · split at hmem
      · simp at hmem
      · split at hmem
        · simp at hmem
        · split at hmem
          · simp at hmem
          · obtain ⟨t, htags, hname, hkey⟩ := expandResultNames_keys _ _ _ _ hmem
            rcases List.mem_map.mp hkey with ⟨p, hp, hpid⟩
            have hkfilter : k ∈ keywords.filter (fun k => !(pyStrip k == "")) :=
              List.mem_filter.mpr ⟨hk, by simpa using hne⟩
            have hkeymem : normKey k ∈
                (keywords.filter (fun k => !(pyStrip k == ""))).map (fun k => normKey k) :=
              List.mem_map.mpr ⟨k, hkfilter, rfl⟩
            have htkey : t.key = normKey k := by rw [hsane t htags, hname]
            have htinit : t ∈ db.tags.filter (fun t =>
                ((keywords.filter (fun k => !(pyStrip k == ""))).map
                  (fun k => normKey k)).contains t.key) := by
              refine List.mem_filter.mpr ⟨htags, ?_⟩
              rw [htkey]
              simpa [List.contains] using hkeymem
            have htid : t.id ∈ (db.tags.filter (fun t =>
                ((keywords.filter (fun k => !(pyStrip k == ""))).map
                  (fun k => normKey k)).contains t.key)).map (fun t => t.id) :=
              List.mem_map.mpr ⟨t, htinit, rfl⟩
            exact keys_foldl_dictDel _ _ _ htid p hp (by rw [hpid])

/-- C7 witness state: sane names (every key is the normalised name). -/
def dbC7W : DB :=
  { emptyDB with
    tags := [⟨1, "x", "x", none, none⟩, ⟨2, "y", "y", none, none⟩],
    tagGroups := [⟨1, "g", "g"⟩],
    tagGroupTags := [⟨1, 1, some 1⟩, ⟨1, 2, some 1⟩],
    nextTagId := 3 }

/-- C7 witness: on the sane-named state the theorem instantiates — the
keyword `x` is not among the returned names. -/
theorem c7_keyword_exclusion_witness :
    "x" ∉ (expandKeywordsUsingGraph dbC7W ["x"] 10).map (fun p => p.1) :=
  c7_keyword_exclusion dbC7W ["x"] 10 (by with_unfolding_all decide) ("x")
    (List.mem_singleton.mpr rfl) (by with_unfolding_all decide)

/-! ### Lemmas about self-loop citation edges (claim C8) -/

/-- Self-loop rows contribute nothing to the outgoing-citation scores. -/
theorem citeOut_filter_self (seeds : List Int) :
    ∀ (cs : List PaperCitation) (acc : List (Int × ℚ)),
      ((cs.filter (fun c => seeds.contains c.citingPaperId)).foldl (citeOutStep seeds) acc) =
      (((cs.filter (fun c => !(c.citingPaperId == c.citedPaperId))).filter
        (fun c => seeds.contains c.citingPaperId)).foldl (citeOutStep seeds) acc)
  | [], _ => rfl
  | c :: cs, acc => by
    by_cases hself : (c.citingPaperId == c.citedPaperId) = true
    · by_cases hseed : (seeds.contains c.citingPaperId) = true
      · have heq : c.citingPaperId = c.citedPaperId := by simpa using hself
        have hcited : (seeds.contains c.citedPaperId) = true := heq ▸ hseed
        simp only [List.filter_cons, hseed, hself, Bool.not_true, if_true, if_false,
          List.foldl_cons]
        rw [show citeOutStep seeds acc c = acc from by rw [citeOutStep, if_pos hcited]]
        exact citeOut_filter_self seeds cs acc
      · simp only [List.filter_cons, hseed, hself, Bool.not_true, if_false]
        exact citeOut_filter_self seeds cs acc
    · by_cases hseed : (seeds.contains c.citingPaperId) = true
      · simp only [List.filter_cons, hseed, hself, Bool.not_false, if_true, if_false,
          List.foldl_cons]
        exact citeOut_filter_self seeds cs (citeOutStep seeds acc c)
      · simp only [List.filter_cons, hseed, hself, Bool.not_false, if_true, if_false]
        exact citeOut_filter_self seeds cs acc

/-- Self-loop rows contribute nothing to the incoming-citation scores. -/
theorem citeIn_filter_self (seeds : List Int) :
    ∀ (cs : List PaperCitation) (acc : List (Int × ℚ)),
      ((cs.filter (fun c => seeds.contains c.citedPaperId)).foldl (citeInStep seeds) acc) =
      (((cs.filter (fun c => !(c.citingPaperId == c.citedPaperId))).filter
        (fun c => seeds.contains c.citedPaperId)).foldl (citeInStep seeds) acc)
  | [], _ => rfl
  | c :: cs, acc => by
    by_cases hself : (c.citingPaperId == c.citedPaperId) = true
    · by_cases hseed : (seeds.contains c.citedPaperId) = true
      · have heq : c.citingPaperId = c.citedPaperId := by simpa using hself
        have hciting : (seeds.contains c.citingPaperId) = true := heq.symm ▸ hseed
        simp only [List.filter_cons, hseed, hself, Bool.not_true, if_true, if_false,
          List.foldl_cons]
        rw [show citeInStep seeds acc c = acc from by rw [citeInStep, if_pos hciting]]
        exact citeIn_filter_self seeds cs acc
      · simp only [List.filter_cons, hseed, hself, Bool.not_true, if_false]
        exact citeIn_filter_self seeds cs acc
    · by_cases hseed : (seeds.contains c.citedPaperId) = true
      · simp only [List.filter_cons, hseed, hself, Bool.not_false, if_true, if_false,
          List.foldl_cons]
        exact citeIn_filter_self seeds cs (citeInStep seeds acc c)
      · simp only [List.filter_cons, hseed, hself, Bool.not_false, if_true, if_false]
        exact citeIn_filter_self seeds cs acc

theorem mem_edges_addUEdge (g : UGraph) (u v a b : Int) (h : (a, b) ∈ g.edges) :
    (a, b) ∈ (addUEdge g u v).edges := by
  rw [addUEdge]
  dsimp only
  split
  · exact h
  · exact List.mem_append_left _ h

theorem self_edge_addUEdge (g : UGraph) (u : Int) : (u, u) ∈ (addUEdge g u u).edges := by
  rw [addUEdge]
  dsimp only
  by_cases h : (g.edges.any (fun e => (e.1 == u && e.2 == u) || (e.1 == u && e.2 == u))) = true
  · rw [if_pos h]
    obtain ⟨e, he, hp⟩ := List.any_eq_true.mp h
    have heu : e = (u, u) := by
      obtain ⟨e1, e2⟩ := e
      simp only [Bool.or_self, Bool.and_eq_true, beq_iff_eq] at hp
      rw [hp.1, hp.2]
    rwa [← heu]
  · rw [if_neg h]
    exact List.mem_append_right _ (List.mem_singleton.mpr rfl)

theorem self_edge_foldl_addUEdge :
    ∀ (cs : List PaperCitation) (g : UGraph) (u : Int), (u, u) ∈ g.edges →
      (u, u) ∈ (cs.foldl (fun g c => addUEdge g c.citingPaperId c.citedPaperId) g).edges
  | [], _, _, h => h
  | c :: cs, g, u, h =>
    self_edge_foldl_addUEdge cs _ u (mem_edges_addUEdge _ _ _ _ _ h)

theorem self_edge_buildFrom :
    ∀ (cs : List PaperCitation) (g : UGraph) (c : PaperCitation), c ∈ cs →
      c.citingPaperId = c.citedPaperId →
      (c.citingPaperId, c.citedPaperId) ∈
        (cs.foldl (fun g c => addUEdge g c.citingPaperId c.citedPaperId) g).edges
  | [], _, _, hc, _ => absurd hc (List.not_mem_nil _)
  | c0 :: cs, g, c, hc, heq => by
    rcases List.mem_cons.mp hc with rfl | hc'
    · rw [List.foldl_cons, heq]
      exact self_edge_foldl_addUEdge cs _ _ (self_edge_addUEdge g c.citedPaperId)
    · exact self_edge_buildFrom cs _ c hc' heq

/-- C8 (amended): a stored self-loop citation edge contributes nothing to
citation expansion — `expand_candidates_using_citation_graph` returns the
same scores with or without the self-loop rows — but the cluster-labelling
pass does include it in the undirected graph it builds (the node and its
self-loop edge are added by `add_edges_from`). -/
theorem c8_self_loops :
    (∀ (db : DB) (seeds : List Int) (limit : Nat) (b1 b2 : Bool),
      expandCandidatesUsingCitationGraph db seeds limit b1 b2 =
      expandCandidatesUsingCitationGraph
        { db with paperCitations :=
            db.paperCitations.filter (fun c => !(c.citingPaperId == c.citedPaperId)) }
        seeds limit b1 b2) ∧
    (∀ (cs : List PaperCitation) (c : PaperCitation), c ∈ cs →
      c.citingPaperId = c.citedPaperId →
      (c.citingPaperId, c.citedPaperId) ∈ (buildClusterGraph cs).edges) := by
  constructor
  · intro db seeds limit b1 b2
    rw [expandCandidatesUsingCitationGraph, expandCandidatesUsingCitationGraph]
    dsimp only
    rw [← citeOut_filter_self seeds db.paperCitations, ← citeIn_filter_self seeds db.paperCitations]
  · intro cs c hc heq
    exact self_edge_buildFrom cs _ c hc heq

/-- C8 counterexample state: a single stored self-loop citation edge. -/
def dbC8 : DB := { emptyDB with paperCitations := [⟨1, 1⟩] }

/-- C8 counterexample: the claim that a self-loop edge contributes nothing to
the undirected graph used for cluster labelling is false — building the graph
with the stored self-loop differs from building it with the self-loop
ignored (the node and the self-loop edge appear). -/
theorem c8_counterexample :
    buildClusterGraph dbC8.paperCitations ≠
      buildClusterGraph (dbC8.paperCitations.filter
        (fun c => !(c.citingPaperId == c.citedPaperId))) := by
  with_unfolding_all decide

/-- C8 witness: the amended theorem instantiated on the one-self-loop state:
the self-loop edge `(1, 1)` is present in the built cluster graph. -/
theorem c8_self_loops_witness :
    ((1 : Int), (1 : Int)) ∈ (buildClusterGraph dbC8.paperCitations).edges :=
  c8_self_loops.2 dbC8.paperCitations ⟨1, 1⟩ (List.mem_singleton.mpr rfl) rfl

/-! ### Lemmas about `_cosine_similarity` (claim C10) -/

/-- The dot product `dot(q, v)` over the zipped prefix, as the claim states it. -/
def dotProd (q v : List ℚ) : ℚ :=
  ((q.zip v).map (fun p => p.1 * p.2)).sum

/-- The squared norm `Σ aᵢ²`, as the claim states it. -/
def sumSq (l : List ℚ) : ℚ :=
  (l.map (fun a => a * a)).sum

theorem cosineAccum_go :
    ∀ (l : List (ℚ × ℚ)) (s : ℚ × ℚ × ℚ),
      l.foldl (fun acc p => (acc.1 + p.1 * p.2, acc.2.1 + p.1 * p.1, acc.2.2 + p.2 * p.2)) s =
      (s.1 + (l.map (fun p => p.1 * p.2)).sum, s.2.1 + (l.map (fun p => p.1 * p.1)).sum,
       s.2.2 + (l.map (fun p => p.2 * p.2)).sum)
  | [], s => by simp
  | p :: l, s => by
    rw [List.foldl_cons, cosineAccum_go l _]
    simp [List.map_cons, List.sum_cons, add_assoc]

theorem zip_map_fst_sq :
    ∀ (q v : List ℚ), q.length = v.length →
      ((q.zip v).map (fun p => p.1 * p.1)).sum = sumSq q
  | [], [], _ => rfl
  | [], _ :: _, h => by simp at h
  | _ :: _, [], h => by simp at h
  | a :: q, b :: v, h => by
    have ih := zip_map_fst_sq q v (by simpa using h)
    simp only [List.zip_cons_cons, List.map_cons, List.sum_cons, sumSq] at ih ⊢
    rw [ih]

theorem zip_map_snd_sq :
    ∀ (q v : List ℚ), q.length = v.length →
      ((q.zip v).map (fun p => p.2 * p.2)).sum = sumSq v
  | [], [], _ => rfl
  | [], _ :: _, h => by simp at h
  | _ :: _, [], h => by simp at h
  | a :: q, b :: v, h => by
    have ih := zip_map_snd_sq q v (by simpa using h)
    simp only [List.zip_cons_cons, List.map_cons, List.sum_cons, sumSq] at ih ⊢
    rw [ih]

/-- The single-loop accumulator computes exactly `(dot, Σq², Σv²)` when the
lengths agree. -/
theorem cosineAccum_spec (q v : List ℚ) (h : q.length = v.length) :
    cosineAccum (q.zip v) = (dotProd q v, sumSq q, sumSq v) := by
  rw [cosineAccum, cosineAccum_go]
  simp only [zero_add]
  rw [zip_map_fst_sq q v h, zip_map_snd_sq q v h]
  rfl

theorem sumSq_nonneg (l : List ℚ) : 0 ≤ sumSq l := by
  refine List.sum_nonneg ?_
  intro x hx
  rcases List.mem_map.mp hx with ⟨a, _, rfl⟩
  exact mul_self_nonneg a

/-- C10: `_cosine_similarity` is total and its division is guarded. It
returns 0 when either vector is empty, when the lengths differ, or when
either squared norm is 0; otherwise it returns
`dot / (sqrt (Σ qᵢ²) * sqrt (Σ vᵢ²))`, whose denominator is provably
nonzero, so no division by zero is reachable. -/
theorem c10_cosine_total :
    (∀ q v : List ℚ, q = [] ∨ v = [] → cosineSimilarity q v = 0) ∧
    (∀ q v : List ℚ, q.length ≠ v.length → cosineSimilarity q v = 0) ∧
    (∀ q v : List ℚ, q.length = v.length → (sumSq q = 0 ∨ sumSq v = 0) →
      cosineSimilarity q v = 0) ∧
    (∀ q v : List ℚ, q.length = v.length → sumSq q ≠ 0 → sumSq v ≠ 0 →
      cosineSimilarity q v =
        ((dotProd q v : ℚ) : ℝ) /
          (Real.sqrt ((sumSq q : ℚ) : ℝ) * Real.sqrt ((sumSq v : ℚ) : ℝ)) ∧
      Real.sqrt ((sumSq q : ℚ) : ℝ) * Real.sqrt ((sumSq v : ℚ) : ℝ) ≠ 0) := by
  refine ⟨?_, ?_, ?_, ?_⟩
  · intro q v h
    rw [cosineSimilarity]
    rcases h with rfl | rfl
    · rw [if_pos (by simp)]
    · rw [if_pos (by simp)]
  · intro q v h
    rw [cosineSimilarity]
    split
    · rfl
    · rw [if_pos (by simp [h])]
  · intro q v hlen hz
    rw [cosineSimilarity]
    split
    · rfl
    · rw [if_neg (by simp [hlen])]
      dsimp only
      rw [cosineAccum_spec q v hlen]
      rcases hz with h | h
      · rw [if_pos (by simp [h])]
      · rw [if_pos (by simp [h])]
  · intro q v hlen h1 h2
    have hq0 : (0 : ℝ) < ((sumSq q : ℚ) : ℝ) := by
      exact_mod_cast lt_of_le_of_ne (sumSq_nonneg q) (Ne.symm h1)
    have hv0 : (0 : ℝ) < ((sumSq v : ℚ) : ℝ) := by
      exact_mod_cast lt_of_le_of_ne (sumSq_nonneg v) (Ne.symm h2)
    have hden : Real.sqrt ((sumSq q : ℚ) : ℝ) * Real.sqrt ((sumSq v : ℚ) : ℝ) ≠ 0 :=
      ne_of_gt (mul_pos (Real.sqrt_pos.mpr hq0) (Real.sqrt_pos.mpr hv0))
    refine ⟨?_, hden⟩
    rw [cosineSimilarity]
    have hqne : q ≠ [] := by
      intro hq
      subst hq
      exact h1 rfl
    have hvne : v ≠ [] := by
      intro hv
      subst hv
      exact h2 rfl
    rw [if_neg (by simp [hqne, hvne])]
    rw [if_neg (by simp [hlen])]
    dsimp only
    rw [cosineAccum_spec q v hlen]
    rw [if_neg (by simp [h1, h2])]

/-- C10 witness: the formula conjunct instantiated at `q = [1]`, `v = [2]`
(both squared norms nonzero). -/
theorem c10_cosine_total_witness :
    cosineSimilarity [1] [2] =
      ((dotProd [1] [2] : ℚ) : ℝ) /
        (Real.sqrt ((sumSq [1] : ℚ) : ℝ) * Real.sqrt ((sumSq [2] : ℚ) : ℝ)) ∧
    Real.sqrt ((sumSq [1] : ℚ) : ℝ) * Real.sqrt ((sumSq [2] : ℚ) : ℝ) ≠ 0 :=
  c10_cosine_total.2.2.2 [1] [2] rfl (by with_unfolding_all decide)
    (by with_unfolding_all decide)

/-! ### Claims C5 and C6: Similarity Scorer fallback and provider failure -/

/-- C6: Embedding Provider failure handling. For every non-empty keyword
list, when the provider returns no vector for the query text, `search`
returns an empty hit list and reports zero total candidates (and, being a
total function, raises nothing). -/
theorem c6_embedding_failure (groups : List (String × GroupCfg))
    (embed : String → Option (List ℚ)) (db : DB) (keywords : List String)
    (yearFrom yearTo : Option Int) (limit : Int)
    (hk : keywords ≠ [])
    (hembed : embed (searchQueryText groups db keywords) = none) :
    (search groups embed db keywords yearFrom yearTo limit).1 = [] ∧
    (search groups embed db keywords yearFrom yearTo limit).2.totalCandidates = 0 := by
  have hmain : search groups embed db keywords yearFrom yearTo limit =
      ([], ⟨(searchExpandedKeywords groups db keywords).1,
            (searchExpandedKeywords groups db keywords).2, 0⟩) := by
    rw [search, if_neg (by simp [hk])]
    dsimp only
    rw [hembed]
  rw [hmain]
  exact ⟨rfl, rfl⟩

/-- C6 witness: a failing provider on a one-keyword query over the empty
database. -/
theorem c6_embedding_failure_witness :
    (search [] (fun _ => none) emptyDB ["a"] none none 20).1 = [] ∧
    (search [] (fun _ => none) emptyDB ["a"] none none 20).2.totalCandidates = 0 :=
  c6_embedding_failure [] (fun _ => none) emptyDB ["a"] none none 20 (by simp) rfl

/-- C5: Similarity Scorer fallback. When no candidate scores strictly
positive but some candidate has an embedding, the scorer stage returns all
embedded candidates ranked descending by their raw (possibly non-positive)
cosine score, truncated to `limit` when `limit > 0` — in particular the
result is never empty. -/
theorem c5_fallback_ranking (queryVec : List ℚ) (candidates : List Paper) (limit : Int)
    (hnonpos : ∀ p ∈ candidates, ∀ v, p.embedding = some v →
      cosineSimilarity queryVec v ≤ 0)
    (hsome : ∃ p ∈ candidates, p.embedding.isSome = true) :
    scorerStage queryVec candidates limit =
      (let ranked := (candidates.filterMap (fun p => p.embedding.map
          (fun v => (⟨p, cosineSimilarity queryVec v⟩ : SemanticSearchHit)))).insertionSort
            (fun a b => b.score ≤ a.score)
       if limit > 0 then ranked.take limit.toNat else ranked) ∧
    scorerStage queryVec candidates limit ≠ [] := by
  have hpos : candidates.filterMap
      (fun p => match p.embedding with
        | none => none
        | some v =>
          let s := cosineSimilarity queryVec v
          if s ≤ 0 then none else some (⟨p, s⟩ : SemanticSearchHit)) = [] := by
    rw [List.filterMap_eq_nil_iff]
    intro p hp
    cases he : p.embedding with
    | none => rfl
    | some v =>
      dsimp only
      rw [if_pos (hnonpos p hp v he)]
  have hcand : candidates ≠ [] := by
    rcases hsome with ⟨p, hp, _⟩
    exact List.ne_nil_of_mem hp
  have hfb : candidates.filterMap (fun p => p.embedding.map
      (fun v => (⟨p, cosineSimilarity queryVec v⟩ : SemanticSearchHit))) ≠ [] := by
    rcases hsome with ⟨p, hp, hs⟩
    intro h0
    rw [List.filterMap_eq_nil_iff] at h0
    have hnone := h0 p hp
    cases he : p.embedding with
    | none => rw [he] at hs; simp at hs
    | some v => rw [he] at hnone; simp at hnone
  have hmain : scorerStage queryVec candidates limit =
      (let ranked := (candidates.filterMap (fun p => p.embedding.map
          (fun v => (⟨p, cosineSimilarity queryVec v⟩ : SemanticSearchHit)))).insertionSort
            (fun a b => b.score ≤ a.score)
       if limit > 0 then ranked.take limit.toNat else ranked) := by
    rw [scorerStage]
    dsimp only
    rw [hpos]
    have hc1 : (([] : List SemanticSearchHit).isEmpty && !candidates.isEmpty) = true := by
      simp [hcand]
    rw [if_pos hc1]
    have hc2 : ¬((candidates.filterMap (fun p => p.embedding.map
        (fun v => (⟨p, cosineSimilarity queryVec v⟩ : SemanticSearchHit)))).isEmpty = true) := by
      simpa using hfb
    rw [if_neg hc2]
  refine ⟨hmain, ?_⟩
  rw [hmain]
  dsimp only
  have hranked : (candidates.filterMap (fun p => p.embedding.map
      (fun v => (⟨p, cosineSimilarity queryVec v⟩ : SemanticSearchHit)))).insertionSort
        (fun a b => b.score ≤ a.score) ≠ [] := by
    intro h0
    apply hfb
    have hlen := congrArg List.length h0
    rw [List.length_insertionSort] at hlen
    exact List.eq_nil_of_length_eq_zero hlen
  split
  · intro h0
    rcases List.take_eq_nil_iff.mp h0 with h1 | h1
    · omega
    · exact hranked h1
  · exact hranked

/-- A concrete cosine value: opposite unit vectors score -1. -/
theorem cosineSimilarity_one_negone : cosineSimilarity [(1:ℚ)] [(-1:ℚ)] = -1 := by
  rw [cosineSimilarity]
  split
  · rename_i h
    exact absurd h (by decide)
  · split
    · rename_i h
      exact absurd h (by decide)
    · dsimp only
      rw [cosineAccum_spec [(1:ℚ)] [(-1:ℚ)] rfl]
      have h1 : dotProd [(1:ℚ)] [(-1:ℚ)] = -1 := by with_unfolding_all decide
      have h2 : sumSq [(1:ℚ)] = 1 := by with_unfolding_all decide
      have h3 : sumSq [(-1:ℚ)] = 1 := by with_unfolding_all decide
      dsimp only
      rw [h1, h2, h3]
      split
      · rename_i h
        exact absurd h (by with_unfolding_all decide)
      · push_cast
        rw [Real.sqrt_one]
        norm_num

/-- A concrete cosine value: identical unit vectors score 1. -/
theorem cosineSimilarity_one_one : cosineSimilarity [(1:ℚ)] [(1:ℚ)] = 1 := by
  rw [cosineSimilarity]
  split
  · rename_i h
    exact absurd h (by decide)
  · split
    · rename_i h
      exact absurd h (by decide)
    · dsimp only
      rw [cosineAccum_spec [(1:ℚ)] [(1:ℚ)] rfl]
      have h1 : dotProd [(1:ℚ)] [(1:ℚ)] = 1 := by with_unfolding_all decide
      have h2 : sumSq [(1:ℚ)] = 1 := by with_unfolding_all decide
      dsimp only
      rw [h1, h2]
      split
      · rename_i h
        exact absurd h (by with_unfolding_all decide)
      · push_cast
        rw [Real.sqrt_one]
        norm_num

/-- C5 witness state: one paper whose embedding scores -1 against the query. -/
def paperC5 : Paper := ⟨1, none, 0, some [-1]⟩

/-- C5 witness: a corpus where every cosine score is non-positive still
yields a non-empty scorer result. -/
theorem c5_fallback_ranking_witness :
    (∀ p ∈ [paperC5], ∀ v, p.embedding = some v → cosineSimilarity [(1:ℚ)] v ≤ 0) ∧
    scorerStage [(1:ℚ)] [paperC5] 5 ≠ [] := by
  have h1 : ∀ p ∈ [paperC5], ∀ v, p.embedding = some v → cosineSimilarity [(1:ℚ)] v ≤ 0 := by
    intro p hp v hv
    rw [List.mem_singleton.mp hp] at hv
    have hv' : v = [-1] := by
      have : some [(-1:ℚ)] = some v := hv
      exact (Option.some.inj this).symm
    rw [hv', cosineSimilarity_one_negone]
    norm_num
  exact ⟨h1, (c5_fallback_ranking [(1:ℚ)] [paperC5] 5 h1
    ⟨paperC5, List.mem_singleton.mpr rfl, rfl⟩).2⟩

/-! ### Claim C2: enhancement with zero harvested tags -/

theorem dictMaxD_nil {κ : Type} (dflt : ℚ) : dictMaxD ([] : List (κ × ℚ)) dflt = dflt := rfl

theorem mem_dictSet_val {κ α : Type} [BEq κ] (d : List (κ × α)) (k : κ) (v : α)
    (p : κ × α) (h : p ∈ dictSet d k v) : p = (k, v) ∨ p ∈ d := by
  rw [dictSet] at h
  split at h
  · rcases List.mem_map.mp h with ⟨q, hq, he⟩
    by_cases hqk : (q.1 == k) = true
    · rw [if_pos hqk] at he
      left
      rw [← he]
    · rw [if_neg hqk] at he
      right
      rw [← he]
      exact hq
  · rcases List.mem_append.mp h with h1 | h1
    · right
      exact h1
    · left
      exact List.mem_singleton.mp h1

/-- With an empty boost table the per-paper score loop adds nothing. -/
theorem innerScore_nil_boost (pts : List PaperTag) :
    ∀ s : ℚ, pts.foldl
      (fun s pt =>
        match dictGet ([] : List (Int × ℚ)) pt.tagId with
        | none => s
        | some b => if b == 0 then s else s + b * (pt.weight.getD 1)) s = s := by
  induction pts with
  | nil => intro s; rfl
  | cons pt pts ih => intro s; exact ih s

/-- With an empty boost table every per-paper tag score is 0. -/
theorem computePaperTagScore_zero_aux :
    ∀ (m : List (Int × List PaperTag)) (acc : List (Int × ℚ)),
      (∀ p ∈ acc, p.2 = 0) →
      ∀ p ∈ m.foldl
        (fun acc pp =>
          let s := pp.2.foldl
            (fun s pt =>
              match dictGet ([] : List (Int × ℚ)) pt.tagId with
              | none => s
              | some b => if b == 0 then s else s + b * (pt.weight.getD 1)) 0
          dictSet acc pp.1 s) acc, p.2 = 0
  | [], _, hacc, p, hp => hacc p hp
  | pp :: m, acc, hacc, p, hp => by
    rw [List.foldl_cons] at hp
    refine computePaperTagScore_zero_aux m _ ?_ p hp
    intro q hq
    rcases mem_dictSet_val _ _ _ _ hq with rfl | hq2
    · exact innerScore_nil_boost pp.2 0
    · exact hacc q hq2

theorem computePaperTagScore_zero (m : List (Int × List PaperTag)) :
    ∀ p ∈ computePaperTagScore m [], p.2 = 0 := by
  intro p hp
  rw [computePaperTagScore] at hp
  exact computePaperTagScore_zero_aux m [] (fun q hq => absurd hq (List.not_mem_nil q)) p hp

theorem dictGet_mem {κ α : Type} [BEq κ] (d : List (κ × α)) (k : κ) (v : α)
    (h : dictGet d k = some v) : ∃ p ∈ d, p.2 = v := by
  rw [dictGet] at h
  cases hf : d.find? (fun p => p.1 == k) with
  | none => rw [hf] at h; simp at h
  | some p =>
    rw [hf] at h
    exact ⟨p, List.mem_of_find?_eq_some hf, by simpa using h⟩

/-- When every tag score is 0 and there are no citation scores, the blend
step leaves every hit untouched. -/
theorem combineScores_identity (paperTagScore : List (Int × ℚ))
    (maxTag maxCit alpha : ℚ) (hits : List SemanticSearchHit)
    (hzero : ∀ p ∈ paperTagScore, p.2 = 0) :
    combineScores paperTagScore [] maxTag maxCit alpha hits = hits := by
  rw [combineScores]
  have hcong : ∀ h ∈ hits,
      (fun (h : SemanticSearchHit) =>
        let tagSignal : ℚ :=
          match dictGet paperTagScore h.paper.id with
          | some s => s / maxTag
          | none => 0
        let citSignal : ℚ :=
          match dictGet ([] : List (Int × ℚ)) h.paper.id with
          | some s => s / maxCit
          | none => 0
        let graphScore : ℚ := (6/10) * tagSignal + (4/10) * citSignal
        (⟨h.paper, h.score + ((alpha * graphScore : ℚ) : ℝ)⟩ : SemanticSearchHit)) h = h := by
    intro h hh
    dsimp only
    have htag : (match dictGet paperTagScore h.paper.id with
        | some s => s / maxTag
        | none => (0 : ℚ)) = 0 := by
      cases hg : dictGet paperTagScore h.paper.id with
      | none => rfl
      | some s =>
        obtain ⟨p, hp, hv⟩ := dictGet_mem _ _ _ hg
        have hs : s = 0 := by rw [← hv]; exact hzero p hp
        rw [hs]
        exact zero_div maxTag
    rw [htag]
    have hcit : dictGet ([] : List (Int × ℚ)) h.paper.id = none := rfl
    rw [hcit]
    dsimp only
    have hzr : alpha * ((6:ℚ)/10 * 0 + 4/10 * 0) = 0 := by ring
    rw [hzr, Rat.cast_zero, add_zero]
  rw [List.map_congr_left hcong]
  simp

/-- C2 (amended): with a non-empty hit list whose seed set has zero PaperTag
rows, `_apply_tag_recall_enhancement` is NOT disabled: it proceeds with
`enabled = true` and an empty tag-boost table (`tag_count = 0`), falling back
to the citation signal alone; when citation expansion also returns nothing,
every final score equals its embedding score and the output is just the
stable descending re-sort of the input hits. -/
theorem c2_no_tags_enhancement (db : DB) (hits : List SemanticSearchHit)
    (maxSeed : Nat) (alpha : ℚ) (hne : hits ≠ []) (hms : 0 < maxSeed)
    (hrows : db.paperTags.filter
      (fun pt => ((hits.take maxSeed).map (fun h => h.paper.id)).contains pt.paperId) = []) :
    (applyTagRecallEnhancement db hits maxSeed alpha true).2.enabled = true ∧
    (applyTagRecallEnhancement db hits maxSeed alpha true).2.tagCount = some 0 ∧
    (expandCandidatesUsingCitationGraph db ((hits.take maxSeed).map (fun h => h.paper.id))
        50 true true = [] →
      (applyTagRecallEnhancement db hits maxSeed alpha true).1 =
        hits.insertionSort (fun a b => b.score ≤ a.score) ∧
      ∀ h ∈ (applyTagRecallEnhancement db hits maxSeed alpha true).1, h ∈ hits) := by
  have hseedne : ((hits.take maxSeed).map (fun h => h.paper.id)) ≠ [] := by
    cases hits with
    | nil => exact absurd rfl hne
    | cons h t =>
      cases maxSeed with
      | zero => omega
      | succ n => simp
  have e1 : hits.isEmpty = false := by
    cases hits with
    | nil => exact absurd rfl hne
    | cons h t => rfl
  have e2 : ((hits.take maxSeed).map (fun h => h.paper.id)).isEmpty = false := by
    cases he : (hits.take maxSeed).map (fun h => h.paper.id) with
    | nil => exact absurd he hseedne
    | cons x xs => rfl
  have hharv : harvestSeedTags db ((hits.take maxSeed).map (fun h => h.paper.id)) = ([], []) := by
    rw [harvestSeedTags, hrows]
    rfl
  refine ⟨?_, ?_, ?_⟩
  · rw [applyTagRecallEnhancement]
    split
    · rename_i h
      rw [e1] at h
      exact absurd h (by decide)
    · dsimp only
      split
      · rename_i h
        rw [e2] at h
        exact absurd h (by decide)
      · rfl
  · rw [applyTagRecallEnhancement]
    split
    · rename_i h
      rw [e1] at h
      exact absurd h (by decide)
    · dsimp only
      split
      · rename_i h
        rw [e2] at h
        exact absurd h (by decide)
      · dsimp only
        rw [hharv]
        dsimp only
        split
        · rename_i h
          exact absurd h (by decide)
        · dsimp only
          rw [dictMaxD_nil]
          split
          · rename_i h
            exact absurd h (lt_irrefl 0)
          · rfl
  · intro hcc
    have hmain : (applyTagRecallEnhancement db hits maxSeed alpha true).1 =
        hits.insertionSort (fun a b => b.score ≤ a.score) := by
      rw [applyTagRecallEnhancement]
      split
      · rename_i h
        rw [e1] at h
        exact absurd h (by decide)
      · dsimp only
        split
        · rename_i h
          rw [e2] at h
          exact absurd h (by decide)
        · dsimp only
          rw [hharv]
          dsimp only
          split
          · rename_i h
            exact absurd h (by decide)
          · dsimp only
            rw [dictMaxD_nil]
            split
            · rename_i h
              exact absurd h (lt_irrefl 0)
            · split
              · rw [hcc]
                simp only [List.map_nil, List.filter_nil]
                split
                · dsimp only
                  rw [List.append_nil]
                  rw [combineScores_identity _ _ _ _ _ (computePaperTagScore_zero _)]
                · rename_i h
                  exact absurd rfl h
              · rename_i h
                exact absurd rfl h
    refine ⟨hmain, ?_⟩
    intro h hh
    rw [hmain] at hh
    exact (List.mem_insertionSort _).mp hh

/-- C2 counterexample paper: one hit, no tags anywhere. -/
def paperC2 : Paper := ⟨1, none, 0, none⟩

/-- C2 counterexample: a non-empty hit list whose seed set has zero PaperTag
rows is NOT flagged disabled — the debug record reports `enabled = true` with
no reason, contradicting the claimed early exit. -/
theorem c2_counterexample :
    (applyTagRecallEnhancement emptyDB [⟨paperC2, (1:ℝ)⟩] 50 (3/10) true).2.enabled = true ∧
    (applyTagRecallEnhancement emptyDB [⟨paperC2, (1:ℝ)⟩] 50 (3/10) true).2.reason = none :=
  ⟨rfl, rfl⟩

/-- C2 witness: the amended theorem instantiated on the single-hit state with
empty tag and citation tables. -/
theorem c2_no_tags_enhancement_witness :
    (applyTagRecallEnhancement emptyDB [⟨paperC2, (1:ℝ)⟩] 50 (3/10) true).2.tagCount = some 0 ∧
    (applyTagRecallEnhancement emptyDB [⟨paperC2, (1:ℝ)⟩] 50 (3/10) true).1 =
      [(⟨paperC2, (1:ℝ)⟩ : SemanticSearchHit)].insertionSort (fun a b => b.score ≤ a.score) := by
  have h := c2_no_tags_enhancement emptyDB [⟨paperC2, (1:ℝ)⟩] 50 (3/10)
    (by simp) (by norm_num) rfl
  exact ⟨h.2.1, (h.2.2 rfl).1⟩

/-! ### Claim C9: search results can exceed `limit` -/

theorem combineScores_length (a b : List (Int × ℚ)) (c d e : ℚ)
    (l : List SemanticSearchHit) : (combineScores a b c d e l).length = l.length := by
  rw [combineScores, List.length_map]

/-- C9 corpus: paper 1 is embedded and cites paper 2, which has no embedding. -/
def dbC9 : DB :=
  { emptyDB with
    papers := [⟨1, none, 0, some [1]⟩, ⟨2, none, 0, none⟩],
    paperCitations := [⟨1, 2⟩] }

/-- The scorer stage on the C9 corpus: exactly the embedded paper, score 1. -/
theorem scorerStage_c9 :
    scorerStage [(1:ℚ)] [⟨1, none, 0, some [(1:ℚ)]⟩] 1 =
      [⟨⟨1, none, 0, some [(1:ℚ)]⟩, (1:ℝ)⟩] := by
  rw [scorerStage]
  dsimp only
  rw [List.filterMap_cons, List.filterMap_nil]
  dsimp only
  rw [cosineSimilarity_one_one]
  have hn : ¬((1:ℝ) ≤ 0) := by norm_num
  rw [if_neg hn]
  rfl

/-- C9 (implicit claim): the ranked list `search` returns can be longer than
`limit`. Truncation to `limit` happens before graph enhancement, and citation
expansion then appends papers absent from the truncated hits without
re-truncating: on the C9 corpus with `limit = 1` the result has 2 entries. -/
theorem c9_result_exceeds_limit :
    1 < (search [] (fun _ => some [1]) dbC9 ["q"] none none 1).1.length := by
  rw [search]
  split
  · rename_i h
    exact absurd h (by decide)
  · dsimp only
    have hcand : searchCandidates dbC9 none none = [⟨1, none, 0, some [(1:ℚ)]⟩] := by
      with_unfolding_all decide
    rw [hcand, scorerStage_c9]
    rw [applyTagRecallEnhancement]
    split
    · rename_i h
      exact absurd h (by decide)
    · dsimp only
      split
      · rename_i h
        exact absurd h (by decide)
      · dsimp only
        rw [List.length_insertionSort, combineScores_length]
        with_unfolding_all decide
